import Mathlib

/-!
go-copy-mgo: the collection-copy algorithm of `main.go`

A shallow embedding of `convertError`, `copyCollection` and `copyDatabase`
(`src/main.go`, lines 94-165).

The two MongoDB databases are external.  Every call the program makes on them
is answered by a *store script*: for each kind of call the script holds the
answer the driver gives, and for the calls made inside a loop the answer is
looked up by the number of calls of that kind made before (first call = 0) and
by the argument passed.  Because the program is sequential, every run of the
program against a real store is the run against some script.  Each embedded
function returns, next to the Go return values, the list of store calls it
issued, in program order.

`log.Printf` lines write to the process log only and are left out.  Go `int`
counters are natural numbers (a cursor yields fewer than 2^63 documents).
-/

namespace CopyMgo

/-! ## Go values -/

/-- Go `strings.Contains(s, substr)`: `substr` occurs in `s` as a contiguous
block.  Go strings are modelled by Lean strings; on UTF-8 text (collection
names, driver messages) a block of bytes and a block of characters are the
same thing, because an encoded character never starts inside another one. -/
def strings_Contains (s substr : String) : Bool :=
  decide (substr.data <:+: s.data)

/-- A non-nil Go `error` value.  `ErrNotFound` is the driver's sentinel
`mgo.ErrNotFound` (compared by identity at line 122); `errorf msg` is any other
error value, with message `msg`.  A nil `error` is `none : Option GoError`. -/
inductive GoError where
  | ErrNotFound : GoError
  | errorf (msg : String) : GoError
  deriving DecidableEq, Repr

/-- The method `err.Error()`.  The driver declares
`ErrNotFound = errors.New("not found")`. -/
def GoError.Error : GoError → String
  | GoError.ErrNotFound => "not found"
  | GoError.errorf msg => msg

/-- The driver's `mgo.Index`: the field the program reads (`Name`) and the key
fields and flags an index description carries.  The program passes the value
through unchanged. -/
structure Index where
  Name : String
  Key : List String
  Unique : Bool
  DropDups : Bool
  Background : Bool
  Sparse : Bool
  deriving DecidableEq, Repr

/-! ## Store calls and store scripts -/

/-- A call on one of the two stores.  `Doc` is the type of documents
(`interface{}` in the source, never inspected). -/
inductive Op (Doc : Type) where
  /-- The call `dbs.src.CollectionNames()` (line 95). -/
  | collectionNames : Op Doc
  /-- The call `dbs.dst.C(collection).DropCollection()` (line 120). -/
  | dropCollection (collection : String) : Op Doc
  /-- The call `dbs.src.C(collection).Indexes()` (line 127). -/
  | indexes (collection : String) : Op Doc
  /-- The call `dbs.dst.C(collection).EnsureIndex(idx)` (line 133). -/
  | ensureIndex (collection : String) (idx : Index) : Op Doc
  /-- The calls `dbs.src.C(collection).Find(bson.M{}).Iter()` (lines 140-141). -/
  | find (collection : String) : Op Doc
  /-- The call `dbs.dst.C(collection).Insert(doc)` (line 149). -/
  | insert (collection : String) (doc : Doc) : Op Doc
  /-- The deferred call `iter.Close()` (line 142). -/
  | iterClose (collection : String) : Op Doc
  /-- The call `dbs.src.C(collection).Count()` (line 109). -/
  | count (collection : String) : Op Doc
  deriving DecidableEq, Repr

/-- Is the call a destination drop? -/
def Op.isDrop {Doc : Type} : Op Doc → Bool
  | Op.dropCollection _ => true
  | _ => false

/-- Is the call an index creation? -/
def Op.isEnsureIndex {Doc : Type} : Op Doc → Bool
  | Op.ensureIndex _ _ => true
  | _ => false

/-- Is the call a document insert? -/
def Op.isInsert {Doc : Type} : Op Doc → Bool
  | Op.insert _ _ => true
  | _ => false

/-- The index passed, when the call is an index creation. -/
def Op.ensuredIndex {Doc : Type} : Op Doc → Option Index
  | Op.ensureIndex _ idx => some idx
  | _ => none

/-- The document passed, when the call is an insert. -/
def Op.insertedDoc {Doc : Type} : Op Doc → Option Doc
  | Op.insert _ doc => some doc
  | _ => none

/-- The collection dropped, when the call is a drop. -/
def Op.droppedName {Doc : Type} : Op Doc → Option String
  | Op.dropCollection c => some c
  | _ => none

/-- The collection a call addresses (`none` for `CollectionNames`). -/
def Op.collection {Doc : Type} : Op Doc → Option String
  | Op.collectionNames => none
  | Op.dropCollection c => some c
  | Op.indexes c => some c
  | Op.ensureIndex c _ => some c
  | Op.find c => some c
  | Op.insert c _ => some c
  | Op.iterClose c => some c
  | Op.count c => some c

/-- What the two stores answer during one run of `copyCollection`. -/
structure CollectionStore (Doc : Type) where
  /-- Result of `DropCollection()`. -/
  dropCollection : Option GoError
  /-- Result `(listIndex, err)` of `Indexes()`. -/
  indexes : List Index × Option GoError
  /-- Result of the `n`-th call (from 0) of `EnsureIndex(idx)`. -/
  ensureIndex : Nat → Index → Option GoError
  /-- The documents for which `iter.Next(&doc)` returns true, in cursor order. -/
  iterDocs : List Doc
  /-- The error state of the cursor when `iter.Next` returns false after the
  last document (what `iter.Err()` would report): `none` when the cursor is
  exhausted, `some e` when iteration stopped on a failure. -/
  iterErr : Option GoError
  /-- Result of the `n`-th call (from 0) of `Insert(doc)`. -/
  insert : Nat → Doc → Option GoError

/-- What the stores answer during one run of `copyDatabase`. -/
structure DatabaseStore (Doc : Type) where
  /-- Result `(list, err)` of `CollectionNames()`. -/
  collectionNames : List String × Option GoError
  /-- The answers given while the loop body runs for position `p` (from 0) of
  the list. -/
  coll : Nat → CollectionStore Doc
  /-- Result `(documentsCount, err)` of `Count()` at position `p` of the list. -/
  count : Nat → Nat × Option GoError

/-- Return values `(int, error)` of `copyCollection`, with the calls issued. -/
structure CopyResult (Doc : Type) where
  n : Nat
  err : Option GoError
  trace : List (Op Doc)

/-- Return value `error` of `copyDatabase`, with the calls issued. -/
structure DatabaseResult (Doc : Type) where
  err : Option GoError
  trace : List (Op Doc)

/-! ## The program -/

/-- `convertError` (lines 157-165). -/
def convertError (err : Option GoError) : Option GoError :=
  match err with
  | none => none
  | some e =>
    if strings_Contains e.Error "not found" then some GoError.ErrNotFound
    else some e

/-- The loop `for _, idx := range listIndex` (lines 132-137); `n` is the number
of `EnsureIndex` calls made so far.  Returns the calls issued and the error the
function returns from inside the loop, if any. -/
def ensureIndexes {Doc : Type} (st : CollectionStore Doc) (collection : String) :
    List Index → Nat → List (Op Doc) × Option GoError
  | [], _ => ([], none)
  | idx :: rest, n =>
    match st.ensureIndex n idx with
    | some err =>
      ([Op.ensureIndex collection idx],
        some (GoError.errorf ("error creating index " ++ idx.Name ++ " for collection "
          ++ collection ++ ": " ++ err.Error)))
    | none =>
      let r := ensureIndexes st collection rest (n + 1)
      (Op.ensureIndex collection idx :: r.1, r.2)

/-- The loop `for iter.Next(&doc)` (lines 147-153) over the documents the cursor
still yields; `i` is the Go variable `i` on entry to the iteration, which is
also the number of `Insert` calls made so far.  Returns the calls issued and
the values `(i, err)` the function returns. -/
def insertDocuments {Doc : Type} (st : CollectionStore Doc) (collection : String) :
    List Doc → Nat → List (Op Doc) × Nat × Option GoError
  | [], i => ([], i, none)
  | doc :: rest, i =>
    let i' := i + 1
    match st.insert i doc with
    | some err =>
      ([Op.insert collection doc], i',
        some (GoError.errorf ("error inserting document into collection " ++ collection
          ++ ": " ++ err.Error ++ "\n")))
    | none =>
      let r := insertDocuments st collection rest i'
      (Op.insert collection doc :: r.1, r.2)

/-- Lines 126-154 of `copyCollection`: everything after the drop step. -/
def copyIndexesAndDocuments {Doc : Type} (st : CollectionStore Doc) (collection : String) :
    CopyResult Doc :=
  match st.indexes with
  | (_, some err) =>
    ⟨0, some (GoError.errorf ("error getting index list: " ++ err.Error)),
      [Op.indexes collection]⟩
  | (listIndex, none) =>
    match ensureIndexes st collection listIndex 0 with
    | (t, some err) => ⟨0, some err, Op.indexes collection :: t⟩
    | (t, none) =>
      let r := insertDocuments st collection st.iterDocs 0
      ⟨r.2.1, r.2.2,
        Op.indexes collection :: t ++ Op.find collection :: r.1 ++ [Op.iterClose collection]⟩

/-- `copyCollection` (lines 118-155). -/
def copyCollection {Doc : Type} (st : CollectionStore Doc) (collection : String) :
    CopyResult Doc :=
  let rest := copyIndexesAndDocuments st collection
  match convertError st.dropCollection with
  | some err =>
    if err ≠ GoError.ErrNotFound then
      ⟨0, some (GoError.errorf ("collection drop error " ++ collection ++ ": " ++ err.Error)),
        [Op.dropCollection collection]⟩
    else ⟨rest.n, rest.err, Op.dropCollection collection :: rest.trace⟩
  | none => ⟨rest.n, rest.err, Op.dropCollection collection :: rest.trace⟩

/-- The loop `for _, collection := range list` of `copyDatabase` (lines
100-114); `p` is the position in the list of the first name still to do.
Returns the calls issued and the error returned from inside the loop, if any. -/
def copyCollections {Doc : Type} (st : DatabaseStore Doc) :
    List String → Nat → List (Op Doc) × Option GoError
  | [], _ => ([], none)
  | collection :: rest, p =>
    if strings_Contains collection "system" then copyCollections st rest (p + 1)
    else
      let r := copyCollection (st.coll p) collection
      match r.err with
      | some err => (r.trace, some err)
      | none =>
        match (st.count p).2 with
        | some err => (r.trace ++ [Op.count collection], some err)
        | none =>
          let r' := copyCollections st rest (p + 1)
          (r.trace ++ Op.count collection :: r'.1, r'.2)

/-- `copyDatabase` (lines 94-116). -/
def copyDatabase {Doc : Type} (st : DatabaseStore Doc) : DatabaseResult Doc :=
  match st.collectionNames with
  | (_, some err) => ⟨some err, [Op.collectionNames]⟩
  | (list, none) =>
    let r := copyCollections st list 0
    ⟨r.2, Op.collectionNames :: r.1⟩

/-! ## Sample stores -/

/-- An index description with the given name and key, all flags off. -/
def sampleIndex (name : String) (key : List String) : Index :=
  ⟨name, key, false, false, false, false⟩

/-- A store on which every call succeeds: two indexes, three documents. -/
def healthyStore : CollectionStore Nat where
  dropCollection := none
  indexes := ([sampleIndex "_id_" ["_id"], sampleIndex "email_1" ["email"]], none)
  ensureIndex := fun _ _ => none
  iterDocs := [10, 20, 30]
  iterErr := none
  insert := fun _ _ => none

/-- A store whose second `Insert` fails: no index, three documents. -/
def secondInsertFails : CollectionStore Nat where
  dropCollection := none
  indexes := ([], none)
  ensureIndex := fun _ _ => none
  iterDocs := [10, 20, 30]
  iterErr := none
  insert := fun n _ => if n = 1 then some (GoError.errorf "E11000 duplicate key error") else none

/-- A store whose cursor stops on a failure after its first document. -/
def brokenCursor : CollectionStore Nat where
  dropCollection := none
  indexes := ([], none)
  ensureIndex := fun _ _ => none
  iterDocs := [10]
  iterErr := some (GoError.errorf "read tcp 10.0.0.5:27017: i/o timeout")
  insert := fun _ _ => none

/-- A store whose index listing fails. -/
def brokenIndexList : CollectionStore Nat where
  dropCollection := none
  indexes := ([], some (GoError.errorf "EOF"))
  ensureIndex := fun _ _ => none
  iterDocs := [10]
  iterErr := none
  insert := fun _ _ => none

/-- A store whose drop fails because the server refuses it. -/
def dropDenied : CollectionStore Nat where
  dropCollection := some (GoError.errorf "not authorized on shop to execute command")
  indexes := ([sampleIndex "_id_" ["_id"]], none)
  ensureIndex := fun _ _ => none
  iterDocs := [10, 20]
  iterErr := none
  insert := fun _ _ => none

/-- A store whose second index creation fails. -/
def secondIndexFails : CollectionStore Nat where
  dropCollection := some (GoError.errorf "ns not found")
  indexes := ([sampleIndex "_id_" ["_id"], sampleIndex "email_1" ["email"],
    sampleIndex "age_1" ["age"]], none)
  ensureIndex := fun n _ => if n = 1 then some (GoError.errorf "index build failed") else none
  iterDocs := [10, 20, 30]
  iterErr := none
  insert := fun _ _ => none

/-- A source with five collections, two of them with "system" in the name;
every call succeeds. -/
def healthyDatabase : DatabaseStore Nat where
  collectionNames := (["users", "system.indexes", "orders", "ecosystems", "System.Audit"], none)
  coll := fun _ => healthyStore
  count := fun _ => (3, none)

/-- A source with four collections; the destination refuses the drop of the
third one. -/
def thirdCopyFails : DatabaseStore Nat where
  collectionNames := (["users", "system.js", "orders", "carts"], none)
  coll := fun p => if p = 2 then dropDenied else healthyStore
  count := fun _ => (3, none)

/-! ## Strings -/

theorem strings_Contains_iff (s substr : String) :
    strings_Contains s substr = true ↔ substr.data <:+: s.data := by
  unfold strings_Contains
  exact decide_eq_true_iff

/-- A string built as `a ++ c ++ b` contains `c`. -/
theorem strings_Contains_mid (a c b : String) :
    strings_Contains (a ++ c ++ b) c = true := by
  rw [strings_Contains_iff]
  exact ⟨a.data, b.data, by simp [String.data_append]⟩

/-- A string built as `a ++ c ++ b ++ d` contains `c`. -/
theorem strings_Contains_mid2 (a c b d : String) :
    strings_Contains (a ++ c ++ b ++ d) c = true := by
  rw [strings_Contains_iff]
  exact ⟨a.data, b.data ++ d.data, by simp [String.data_append]⟩

/-- A string built as `a ++ c ++ b ++ d ++ e` contains `c`. -/
theorem strings_Contains_mid3 (a c b d e : String) :
    strings_Contains (a ++ c ++ b ++ d ++ e) c = true := by
  rw [strings_Contains_iff]
  exact ⟨a.data, b.data ++ d.data ++ e.data, by simp [String.data_append]⟩

/-- A string built as `a ++ x ++ b ++ c ++ d ++ e` contains `c`. -/
theorem strings_Contains_mid4 (a x b c d e : String) :
    strings_Contains (a ++ x ++ b ++ c ++ d ++ e) c = true := by
  rw [strings_Contains_iff]
  exact ⟨a.data ++ x.data ++ b.data, d.data ++ e.data, by simp [String.data_append]⟩

/-- A string built as `a ++ x ++ b ++ c ++ d ++ e` contains `x`. -/
theorem strings_Contains_mid4' (a x b c d e : String) :
    strings_Contains (a ++ x ++ b ++ c ++ d ++ e) x = true := by
  rw [strings_Contains_iff]
  exact ⟨a.data, b.data ++ c.data ++ d.data ++ e.data, by simp [String.data_append]⟩

/-! ## Reading calls back from a trace -/

section Traces

variable {Doc : Type} (c : String)

theorem filterMap_ensuredIndex_ensure (l : List Index) :
    (l.map (Op.ensureIndex c : Index → Op Doc)).filterMap Op.ensuredIndex = l := by
  induction l with
  | nil => rfl
  | cons a rest ih => simp [Op.ensuredIndex, ih]

theorem filterMap_ensuredIndex_insert (l : List Doc) :
    (l.map (Op.insert c)).filterMap Op.ensuredIndex = [] := by
  induction l with
  | nil => rfl
  | cons a rest ih => simp [Op.ensuredIndex, ih]

theorem filterMap_insertedDoc_insert (l : List Doc) :
    (l.map (Op.insert c)).filterMap Op.insertedDoc = l := by
  induction l with
  | nil => rfl
  | cons a rest ih => simp [Op.insertedDoc, ih]

theorem filterMap_insertedDoc_ensure (l : List Index) :
    (l.map (Op.ensureIndex c : Index → Op Doc)).filterMap Op.insertedDoc = [] := by
  induction l with
  | nil => rfl
  | cons a rest ih => simp [Op.insertedDoc, ih]

theorem not_isInsert_of_mem_ensure (l : List Index) (op : Op Doc)
    (h : op ∈ l.map (Op.ensureIndex c)) : op.isInsert = false ∧ op.isDrop = false := by
  obtain ⟨a, _, rfl⟩ := List.mem_map.1 h
  exact ⟨rfl, rfl⟩

theorem not_isEnsureIndex_of_mem_insert (l : List Doc) (op : Op Doc)
    (h : op ∈ l.map (Op.insert c)) : op.isEnsureIndex = false ∧ op.isDrop = false := by
  obtain ⟨a, _, rfl⟩ := List.mem_map.1 h
  exact ⟨rfl, rfl⟩

/-- In a list `l₁ ++ l₂` where no element of `l₂` satisfies `P` and no element
of `l₁` satisfies `Q`, every `P` element stands before every `Q` element. -/
theorem lt_of_append {α : Type} (P Q : α → Bool) (l₁ l₂ : List α)
    (h₁ : ∀ x ∈ l₁, Q x = false) (h₂ : ∀ x ∈ l₂, P x = false)
    (i j : Nat) (a b : α) (hi : (l₁ ++ l₂)[i]? = some a) (hj : (l₁ ++ l₂)[j]? = some b)
    (ha : P a = true) (hb : Q b = true) : i < j := by
  by_contra hij
  have hji : j ≤ i := Nat.le_of_not_lt hij
  by_cases hlen : i < l₁.length
  · have hjl : j < l₁.length := by omega
    rw [List.getElem?_append_left hjl] at hj
    have hmem : b ∈ l₁ := List.getElem?_mem hj
    rw [h₁ b hmem] at hb
    exact Bool.noConfusion hb
  · rw [List.getElem?_append_right (Nat.le_of_not_lt hlen)] at hi
    have hmem : a ∈ l₂ := List.getElem?_mem hi
    rw [h₂ a hmem] at ha
    exact Bool.noConfusion ha

end Traces

/-! ## The index loop -/

section Loops

variable {Doc : Type} (st : CollectionStore Doc) (c : String)

theorem ensureIndexes_ok (l : List Index) (n : Nat)
    (h : ∀ j idx, l[j]? = some idx → st.ensureIndex (n + j) idx = none) :
    ensureIndexes st c l n = (l.map (Op.ensureIndex c), none) := by
  induction l generalizing n with
  | nil => rfl
  | cons idx rest ih =>
    have h0 : st.ensureIndex n idx = none := h 0 idx (by simp)
    have hrest : ∀ j idx', rest[j]? = some idx' → st.ensureIndex (n + 1 + j) idx' = none := by
      intro j idx' hj
      have := h (j + 1) idx' (by simpa using hj)
      rwa [show n + (j + 1) = n + 1 + j by omega] at this
    simp [ensureIndexes, h0, ih (n + 1) hrest]

theorem ensureIndexes_fail (l : List Index) (n j : Nat) (idx : Index) (e : GoError)
    (hj : l[j]? = some idx)
    (hbefore : ∀ i idx', i < j → l[i]? = some idx' → st.ensureIndex (n + i) idx' = none)
    (hfail : st.ensureIndex (n + j) idx = some e) :
    ensureIndexes st c l n =
      ((l.take (j + 1)).map (Op.ensureIndex c),
        some (GoError.errorf ("error creating index " ++ idx.Name ++ " for collection "
          ++ c ++ ": " ++ e.Error))) := by
  induction l generalizing n j with
  | nil => simp at hj
  | cons a rest ih =>
    cases j with
    | zero =>
      simp at hj
      subst hj
      simp at hfail
      simp [ensureIndexes, hfail]
    | succ j =>
      have h0 : st.ensureIndex n a = none := hbefore 0 a (by omega) (by simp)
      have hj' : rest[j]? = some idx := by simpa using hj
      have hb' : ∀ i idx', i < j → rest[i]? = some idx' →
          st.ensureIndex (n + 1 + i) idx' = none := by
        intro i idx' hi hget
        have := hbefore (i + 1) idx' (by omega) (by simpa using hget)
        rwa [show n + (i + 1) = n + 1 + i by omega] at this
      have hf' : st.ensureIndex (n + 1 + j) idx = some e := by
        rwa [show n + (j + 1) = n + 1 + j by omega] at hfail
      simp [ensureIndexes, h0, ih (n + 1) j hj' hb' hf']

theorem ensureIndexes_none (l : List Index) (n : Nat)
    (h : (ensureIndexes st c l n).2 = none) :
    ∀ j idx, l[j]? = some idx → st.ensureIndex (n + j) idx = none := by
  induction l generalizing n with
  | nil => intro j idx hj; simp at hj
  | cons a rest ih =>
    intro j idx hj
    cases h0 : st.ensureIndex n a with
    | some e => simp [ensureIndexes, h0] at h
    | none =>
      simp [ensureIndexes, h0] at h
      cases j with
      | zero =>
        simp at hj
        subst hj
        simpa using h0
      | succ j =>
        have := ih (n + 1) h j idx (by simpa using hj)
        rwa [show n + 1 + j = n + (j + 1) by omega] at this

theorem ensureIndexes_trace (l : List Index) (n : Nat) :
    ∃ r, r ≤ l.length ∧ (ensureIndexes st c l n).1 = (l.take r).map (Op.ensureIndex c) := by
  induction l generalizing n with
  | nil => exact ⟨0, le_refl _, rfl⟩
  | cons a rest ih =>
    cases h0 : st.ensureIndex n a with
    | some e => exact ⟨1, by simp, by simp [ensureIndexes, h0]⟩
    | none =>
      obtain ⟨r, hr, ht⟩ := ih (n + 1)
      exact ⟨r + 1, by simpa using hr, by simp [ensureIndexes, h0, ht]⟩

theorem ensureIndexes_err_contains (l : List Index) (n : Nat) (e : GoError)
    (h : (ensureIndexes st c l n).2 = some e) : strings_Contains e.Error c = true := by
  induction l generalizing n with
  | nil => simp [ensureIndexes] at h
  | cons a rest ih =>
    cases h0 : st.ensureIndex n a with
    | some e0 =>
      simp [ensureIndexes, h0] at h
      subst h
      exact strings_Contains_mid4 _ _ _ _ _ _
    | none =>
      simp [ensureIndexes, h0] at h
      exact ih (n + 1) h

/-! ## The document loop -/

theorem insertDocuments_ok (docs : List Doc) (i : Nat)
    (h : ∀ j doc, docs[j]? = some doc → st.insert (i + j) doc = none) :
    insertDocuments st c docs i = (docs.map (Op.insert c), i + docs.length, none) := by
  induction docs generalizing i with
  | nil => rfl
  | cons d rest ih =>
    have h0 : st.insert i d = none := h 0 d (by simp)
    have hrest : ∀ j doc, rest[j]? = some doc → st.insert (i + 1 + j) doc = none := by
      intro j doc hj
      have := h (j + 1) doc (by simpa using hj)
      rwa [show i + (j + 1) = i + 1 + j by omega] at this
    simp [insertDocuments, h0, ih (i + 1) hrest]
    omega

theorem insertDocuments_fail (docs : List Doc) (i j : Nat) (doc : Doc) (e : GoError)
    (hj : docs[j]? = some doc)
    (hbefore : ∀ m d, m < j → docs[m]? = some d → st.insert (i + m) d = none)
    (hfail : st.insert (i + j) doc = some e) :
    insertDocuments st c docs i =
      ((docs.take (j + 1)).map (Op.insert c), i + j + 1,
        some (GoError.errorf ("error inserting document into collection " ++ c
          ++ ": " ++ e.Error ++ "\n"))) := by
  induction docs generalizing i j with
  | nil => simp at hj
  | cons a rest ih =>
    cases j with
    | zero =>
      simp at hj
      subst hj
      simp at hfail
      simp [insertDocuments, hfail]
    | succ j =>
      have h0 : st.insert i a = none := hbefore 0 a (by omega) (by simp)
      have hj' : rest[j]? = some doc := by simpa using hj
      have hb' : ∀ m d, m < j → rest[m]? = some d → st.insert (i + 1 + m) d = none := by
        intro m d hm hget
        have := hbefore (m + 1) d (by omega) (by simpa using hget)
        rwa [show i + (m + 1) = i + 1 + m by omega] at this
      have hf' : st.insert (i + 1 + j) doc = some e := by
        rwa [show i + (j + 1) = i + 1 + j by omega] at hfail
      simp [insertDocuments, h0, ih (i + 1) j hj' hb' hf']
      omega

theorem insertDocuments_trace (docs : List Doc) (i : Nat) :
    ∃ r, r ≤ docs.length ∧ (insertDocuments st c docs i).1 = (docs.take r).map (Op.insert c) := by
  induction docs generalizing i with
  | nil => exact ⟨0, le_refl _, rfl⟩
  | cons a rest ih =>
    cases h0 : st.insert i a with
    | some e => exact ⟨1, by simp, by simp [insertDocuments, h0]⟩
    | none =>
      obtain ⟨r, hr, ht⟩ := ih (i + 1)
      exact ⟨r + 1, by simpa using hr, by simp [insertDocuments, h0, ht]⟩

theorem insertDocuments_err_contains (docs : List Doc) (i : Nat) (e : GoError)
    (h : (insertDocuments st c docs i).2.2 = some e) : strings_Contains e.Error c = true := by
  induction docs generalizing i with
  | nil => simp [insertDocuments] at h
  | cons a rest ih =>
    cases h0 : st.insert i a with
    | some e0 =>
      simp [insertDocuments, h0] at h
      subst h
      show strings_Contains ("error inserting document into collection " ++ c ++ ": "
        ++ e0.Error ++ "\n") c = true
      exact strings_Contains_mid3 _ _ _ _ _
    | none =>
      simp [insertDocuments, h0] at h
      exact ih (i + 1) h

end Loops

/-! ## The steps of `copyCollection` -/

section Steps

variable {Doc : Type} (st : CollectionStore Doc) (c : String)

theorem convertError_fatal (d : Option GoError) (e : GoError) (hd : d = some e)
    (hmsg : strings_Contains e.Error "not found" = false) :
    convertError d = some e ∧ e ≠ GoError.ErrNotFound := by
  subst hd
  refine ⟨by simp [convertError, hmsg], ?_⟩
  intro he
  subst he
  revert hmsg
  decide

theorem convertError_pass (d : Option GoError)
    (hd : ∀ e, d = some e → strings_Contains e.Error "not found" = true) :
    convertError d = none ∨ convertError d = some GoError.ErrNotFound := by
  cases d with
  | none => exact Or.inl rfl
  | some e => exact Or.inr (by simp [convertError, hd e rfl])

/-- A drop that fails without "not found" in its message ends the function. -/
theorem copyCollection_of_fatal (e : GoError) (hd : st.dropCollection = some e)
    (hmsg : strings_Contains e.Error "not found" = false) :
    copyCollection st c =
      ⟨0, some (GoError.errorf ("collection drop error " ++ c ++ ": " ++ e.Error)),
        [Op.dropCollection c]⟩ := by
  obtain ⟨h1, h2⟩ := convertError_fatal st.dropCollection e hd hmsg
  simp [copyCollection, h1, h2]

/-- After any other drop result the function runs lines 126-154. -/
theorem copyCollection_of_pass
    (hd : ∀ e, st.dropCollection = some e → strings_Contains e.Error "not found" = true) :
    copyCollection st c =
      ⟨(copyIndexesAndDocuments st c).n, (copyIndexesAndDocuments st c).err,
        Op.dropCollection c :: (copyIndexesAndDocuments st c).trace⟩ := by
  rcases convertError_pass st.dropCollection hd with h | h <;> simp [copyCollection, h]

/-- Every drop result is of one of the two kinds. -/
theorem drop_fatal_or_pass (d : Option GoError) :
    (∃ e, d = some e ∧ strings_Contains e.Error "not found" = false) ∨
      (∀ e, d = some e → strings_Contains e.Error "not found" = true) := by
  cases d with
  | none => exact Or.inr (fun e h => by simp at h)
  | some e =>
    cases h : strings_Contains e.Error "not found" with
    | false => exact Or.inl ⟨e, rfl, h⟩
    | true =>
      refine Or.inr (fun e' h' => ?_)
      simp at h'
      subst h'
      exact h

theorem copyIndexesAndDocuments_list_error (l : List Index) (e : GoError)
    (hl : st.indexes = (l, some e)) :
    copyIndexesAndDocuments st c =
      ⟨0, some (GoError.errorf ("error getting index list: " ++ e.Error)), [Op.indexes c]⟩ := by
  simp [copyIndexesAndDocuments, hl]

theorem copyIndexesAndDocuments_index_error (l : List Index) (t : List (Op Doc)) (e : GoError)
    (hl : st.indexes = (l, none)) (he : ensureIndexes st c l 0 = (t, some e)) :
    copyIndexesAndDocuments st c = ⟨0, some e, Op.indexes c :: t⟩ := by
  simp [copyIndexesAndDocuments, hl, he]

theorem copyIndexesAndDocuments_stream (l : List Index) (t : List (Op Doc))
    (hl : st.indexes = (l, none)) (he : ensureIndexes st c l 0 = (t, none)) :
    copyIndexesAndDocuments st c =
      ⟨(insertDocuments st c st.iterDocs 0).2.1, (insertDocuments st c st.iterDocs 0).2.2,
        Op.indexes c :: t ++ Op.find c :: (insertDocuments st c st.iterDocs 0).1
          ++ [Op.iterClose c]⟩ := by
  simp [copyIndexesAndDocuments, hl, he]

/-- The four ways a run of `copyCollection` can go, with the calls issued:
stop at the drop, stop at the index listing, stop inside the index loop, or
reach the document loop. -/
theorem copyCollection_cases :
    ((∃ e, st.dropCollection = some e ∧ strings_Contains e.Error "not found" = false) ∧
        (copyCollection st c).trace = [Op.dropCollection c]) ∨
    ((∀ e, st.dropCollection = some e → strings_Contains e.Error "not found" = true) ∧
        st.indexes.2 ≠ none ∧
        (copyCollection st c).trace = [Op.dropCollection c, Op.indexes c]) ∨
    ((∀ e, st.dropCollection = some e → strings_Contains e.Error "not found" = true) ∧
        st.indexes.2 = none ∧ (ensureIndexes st c st.indexes.1 0).2 ≠ none ∧
        (copyCollection st c).trace =
          Op.dropCollection c :: Op.indexes c :: (ensureIndexes st c st.indexes.1 0).1) ∨
    ((∀ e, st.dropCollection = some e → strings_Contains e.Error "not found" = true) ∧
        st.indexes.2 = none ∧ (ensureIndexes st c st.indexes.1 0).2 = none ∧
        (copyCollection st c).trace =
          Op.dropCollection c :: Op.indexes c :: (ensureIndexes st c st.indexes.1 0).1
            ++ Op.find c :: (insertDocuments st c st.iterDocs 0).1 ++ [Op.iterClose c] ∧
        (copyCollection st c).n = (insertDocuments st c st.iterDocs 0).2.1 ∧
        (copyCollection st c).err = (insertDocuments st c st.iterDocs 0).2.2) := by
  rcases drop_fatal_or_pass st.dropCollection with ⟨e, hd, hmsg⟩ | hpass
  · left
    exact ⟨⟨e, hd, hmsg⟩, by rw [copyCollection_of_fatal st c e hd hmsg]⟩
  · right
    rw [copyCollection_of_pass st c hpass]
    rcases hidx : st.indexes with ⟨l, _ | e⟩
    · right
      rcases hens : ensureIndexes st c l 0 with ⟨t, _ | e⟩
      · right
        rw [copyIndexesAndDocuments_stream st c l t hidx hens]
        exact ⟨hpass, rfl, rfl, by simp, rfl, rfl⟩
      · left
        rw [copyIndexesAndDocuments_index_error st c l t e hidx hens]
        exact ⟨hpass, rfl, by simp, rfl⟩
    · left
      rw [copyIndexesAndDocuments_list_error st c l e hidx]
      exact ⟨hpass, by simp, rfl⟩

theorem ensureIndexes_congr (st' : CollectionStore Doc) (h : st.ensureIndex = st'.ensureIndex)
    (l : List Index) (n : Nat) : ensureIndexes st c l n = ensureIndexes st' c l n := by
  induction l generalizing n with
  | nil => rfl
  | cons a rest ih => simp [ensureIndexes, h, ih]

theorem insertDocuments_congr (st' : CollectionStore Doc) (h : st.insert = st'.insert)
    (docs : List Doc) (i : Nat) : insertDocuments st c docs i = insertDocuments st' c docs i := by
  induction docs generalizing i with
  | nil => rfl
  | cons a rest ih => simp [insertDocuments, h, ih]

/-- Lines 126-154 do not look at the result of the drop. -/
theorem copyIndexesAndDocuments_congr (st' : CollectionStore Doc)
    (h1 : st.indexes = st'.indexes) (h2 : st.ensureIndex = st'.ensureIndex)
    (h3 : st.iterDocs = st'.iterDocs) (h4 : st.insert = st'.insert) :
    copyIndexesAndDocuments st c = copyIndexesAndDocuments st' c := by
  unfold copyIndexesAndDocuments
  rw [h1, h3]
  simp only [ensureIndexes_congr st c st' h2, insertDocuments_congr st c st' h4]

theorem copyIndexesAndDocuments_trace_cons :
    ∃ t, (copyIndexesAndDocuments st c).trace = Op.indexes c :: t := by
  rcases hidx : st.indexes with ⟨l, _ | e⟩
  · rcases hens : ensureIndexes st c l 0 with ⟨t, _ | e⟩
    · rw [copyIndexesAndDocuments_stream st c l t hidx hens]
      exact ⟨_, rfl⟩
    · rw [copyIndexesAndDocuments_index_error st c l t e hidx hens]
      exact ⟨_, rfl⟩
  · rw [copyIndexesAndDocuments_list_error st c l e hidx]
    exact ⟨_, rfl⟩

theorem mem_ensureIndexes (l : List Index) (n : Nat) (op : Op Doc)
    (h : op ∈ (ensureIndexes st c l n).1) :
    op.isEnsureIndex = true ∧ op.isInsert = false ∧ op.isDrop = false ∧ op ≠ Op.find c := by
  obtain ⟨r, _, hr⟩ := ensureIndexes_trace st c l n
  rw [hr] at h
  obtain ⟨a, _, rfl⟩ := List.mem_map.1 h
  exact ⟨rfl, rfl, rfl, by simp⟩

theorem mem_insertDocuments (docs : List Doc) (i : Nat) (op : Op Doc)
    (h : op ∈ (insertDocuments st c docs i).1) :
    op.isInsert = true ∧ op.isEnsureIndex = false ∧ op.isDrop = false := by
  obtain ⟨r, _, hr⟩ := insertDocuments_trace st c docs i
  rw [hr] at h
  obtain ⟨a, _, rfl⟩ := List.mem_map.1 h
  exact ⟨rfl, rfl, rfl⟩

/-- The calls of a run are the drop, then a block without inserts, then a
block without index creations; neither block holds a drop. -/
theorem copyCollection_split :
    ∃ l₁ l₂ : List (Op Doc), (copyCollection st c).trace = Op.dropCollection c :: (l₁ ++ l₂) ∧
      (∀ x ∈ l₁, x.isInsert = false ∧ x.isDrop = false) ∧
      (∀ x ∈ l₂, x.isEnsureIndex = false ∧ x.isDrop = false) := by
  have hens : ∀ x ∈ Op.indexes c :: (ensureIndexes st c st.indexes.1 0).1,
      x.isInsert = false ∧ x.isDrop = false := by
    intro x hx
    rcases List.mem_cons.1 hx with rfl | hx
    · exact ⟨rfl, rfl⟩
    · have := mem_ensureIndexes st c _ _ x hx
      exact ⟨this.2.1, this.2.2.1⟩
  rcases copyCollection_cases st c with ⟨_, ht⟩ | ⟨_, _, ht⟩ | ⟨_, _, _, ht⟩ | ⟨_, _, _, ht, _⟩
  · exact ⟨[], [], by simpa using ht, by simp, by simp⟩
  · refine ⟨[Op.indexes c], [], by simpa using ht, ?_, by simp⟩
    intro x hx
    simp at hx
    subst hx
    exact ⟨rfl, rfl⟩
  · exact ⟨_, [], by simpa using ht, hens, by simp⟩
  · refine ⟨Op.indexes c :: (ensureIndexes st c st.indexes.1 0).1,
      Op.find c :: (insertDocuments st c st.iterDocs 0).1 ++ [Op.iterClose c],
      by simpa using ht, hens, ?_⟩
    intro x hx
    rcases List.mem_append.1 hx with hx | hx
    · rcases List.mem_cons.1 hx with rfl | hx
      · exact ⟨rfl, rfl⟩
      · have := mem_insertDocuments st c _ _ x hx
        exact ⟨this.2.1, this.2.2⟩
    · simp at hx
      subst hx
      exact ⟨rfl, rfl⟩

/-- Every call of a run addresses the collection being copied. -/
theorem copyCollection_ops_on_collection :
    ∀ op ∈ (copyCollection st c).trace, op.collection = some c := by
  have hens : ∀ op ∈ (ensureIndexes st c st.indexes.1 0).1, op.collection = some c := by
    intro op hop
    obtain ⟨r, _, hr⟩ := ensureIndexes_trace st c st.indexes.1 0
    rw [hr] at hop
    obtain ⟨a, _, rfl⟩ := List.mem_map.1 hop
    rfl
  have hins : ∀ op ∈ (insertDocuments st c st.iterDocs 0).1, op.collection = some c := by
    intro op hop
    obtain ⟨r, _, hr⟩ := insertDocuments_trace st c st.iterDocs 0
    rw [hr] at hop
    obtain ⟨a, _, rfl⟩ := List.mem_map.1 hop
    rfl
  intro op hop
  rcases copyCollection_cases st c with ⟨_, h⟩ | ⟨_, _, h⟩ | ⟨_, _, _, h⟩ | ⟨_, _, _, h, _⟩
  · rw [h] at hop
    simp at hop
    subst hop
    rfl
  · rw [h] at hop
    simp at hop
    rcases hop with rfl | rfl <;> rfl
  · rw [h] at hop
    rcases List.mem_cons.1 hop with rfl | hop
    · rfl
    · rcases List.mem_cons.1 hop with rfl | hop
      · rfl
      · exact hens op hop
  · rw [h] at hop
    rcases List.mem_append.1 hop with hop | hop
    · rcases List.mem_append.1 hop with hop | hop
      · rcases List.mem_cons.1 hop with rfl | hop
        · rfl
        · rcases List.mem_cons.1 hop with rfl | hop
          · rfl
          · exact hens op hop
      · rcases List.mem_cons.1 hop with rfl | hop
        · rfl
        · exact hins op hop
    · simp at hop
      subst hop
      rfl

/-- When the insert at position `j` (from 0) is the first to fail, the function
returns `i = j + 1`, the number of `Insert` calls made, and has passed the
first `j + 1` documents to `Insert`. -/
theorem copyCollection_insert_failure (idxs : List Index) (j : Nat) (doc : Doc) (e : GoError)
    (hdrop : ∀ e', st.dropCollection = some e' → strings_Contains e'.Error "not found" = true)
    (hlist : st.indexes = (idxs, none))
    (hidx : ∀ n idx, idxs[n]? = some idx → st.ensureIndex n idx = none)
    (hj : st.iterDocs[j]? = some doc)
    (hbefore : ∀ m d, m < j → st.iterDocs[m]? = some d → st.insert m d = none)
    (hfail : st.insert j doc = some e) :
    (copyCollection st c).n = j + 1 ∧
      (copyCollection st c).err =
        some (GoError.errorf ("error inserting document into collection " ++ c
          ++ ": " ++ e.Error ++ "\n")) ∧
      (copyCollection st c).trace.filterMap Op.insertedDoc = st.iterDocs.take (j + 1) := by
  have h1 := ensureIndexes_ok st c idxs 0 (by simpa using hidx)
  have h2 := insertDocuments_fail st c st.iterDocs 0 j doc e hj (by simpa using hbefore)
    (by simpa using hfail)
  rw [copyCollection_of_pass st c hdrop,
    copyIndexesAndDocuments_stream st c idxs _ hlist h1, h2]
  refine ⟨by simp, rfl, ?_⟩
  simp only [List.cons_append, List.filterMap_cons, List.filterMap_append,
    List.filterMap_nil, Op.insertedDoc, filterMap_insertedDoc_ensure,
    filterMap_insertedDoc_insert, List.append_nil, List.nil_append]

/-- The error state of the cursor has no effect on the run. -/
theorem copyCollection_iterErr_unused (e : Option GoError) :
    copyCollection { st with iterErr := e } c = copyCollection st c := by
  have hsame := copyIndexesAndDocuments_congr { st with iterErr := e } c st rfl rfl rfl rfl
  unfold copyCollection
  rw [hsame]

/-- A failed drop (other than "not found"), index listing or index creation
makes the returned error non-nil. -/
theorem copyCollection_err_none_inv (h : (copyCollection st c).err = none) :
    (∀ e, st.dropCollection = some e → strings_Contains e.Error "not found" = true) ∧
      st.indexes.2 = none ∧
      (∀ j idx, st.indexes.1[j]? = some idx → st.ensureIndex j idx = none) ∧
      (insertDocuments st c st.iterDocs 0).2.2 = none := by
  rcases drop_fatal_or_pass st.dropCollection with ⟨e, hd, hmsg⟩ | hpass
  · rw [copyCollection_of_fatal st c e hd hmsg] at h
    simp at h
  · rw [copyCollection_of_pass st c hpass] at h
    rcases hidx : st.indexes with ⟨l, _ | e⟩
    · rcases hens : ensureIndexes st c l 0 with ⟨t, _ | e⟩
      · rw [copyIndexesAndDocuments_stream st c l t hidx hens] at h
        have hall := ensureIndexes_none st c l 0 (by rw [hens])
        exact ⟨hpass, rfl, by simpa using hall, h⟩
      · rw [copyIndexesAndDocuments_index_error st c l t e hidx hens] at h
        simp at h
    · rw [copyIndexesAndDocuments_list_error st c l e hidx] at h
      simp at h

/-- When the index listing succeeds, the error returned names the collection. -/
theorem copyCollection_err_contains (e : GoError) (hlist : st.indexes.2 = none)
    (h : (copyCollection st c).err = some e) : strings_Contains e.Error c = true := by
  rcases drop_fatal_or_pass st.dropCollection with ⟨e', hd, hmsg⟩ | hpass
  · rw [copyCollection_of_fatal st c e' hd hmsg] at h
    simp at h
    subst h
    exact strings_Contains_mid2 _ _ _ _
  · rw [copyCollection_of_pass st c hpass] at h
    have hl : st.indexes = (st.indexes.1, none) := by rw [← hlist]
    rcases hens : ensureIndexes st c st.indexes.1 0 with ⟨t, _ | e'⟩
    · rw [copyIndexesAndDocuments_stream st c _ t hl hens] at h
      exact insertDocuments_err_contains st c _ _ e h
    · rw [copyIndexesAndDocuments_index_error st c _ t e' hl hens] at h
      simp at h
      subst h
      exact ensureIndexes_err_contains st c _ 0 e' (by rw [hens])

end Steps

/-! ## The loop of `copyDatabase` -/

section Database

variable {Doc : Type}

theorem filterMap_droppedName_nil (l : List (Op Doc)) (h : ∀ x ∈ l, x.isDrop = false) :
    l.filterMap Op.droppedName = [] := by
  induction l with
  | nil => rfl
  | cons a rest ih =>
    have ha : a.isDrop = false := h a (List.mem_cons_self _ _)
    have hrest := ih (fun x hx => h x (List.mem_cons_of_mem _ hx))
    cases a <;> simp_all [Op.droppedName, Op.isDrop]

/-- A run of `copyCollection` issues one drop, on its own collection. -/
theorem copyCollection_droppedName (st : CollectionStore Doc) (c : String) :
    (copyCollection st c).trace.filterMap Op.droppedName = [c] := by
  obtain ⟨l₁, l₂, ht, h₁, h₂⟩ := copyCollection_split st c
  have hnil : (l₁ ++ l₂).filterMap Op.droppedName = [] := by
    apply filterMap_droppedName_nil
    intro x hx
    rcases List.mem_append.1 hx with hx | hx
    · exact (h₁ x hx).2
    · exact (h₂ x hx).2
  rw [ht]
  simp only [List.filterMap_cons, Op.droppedName, hnil]

/-- A run of `copyCollection` on which no call fails returns a nil error. -/
theorem copyCollection_err_none (st : CollectionStore Doc) (c : String)
    (hdrop : st.dropCollection = none) (hlist : st.indexes.2 = none)
    (hidx : ∀ n idx, st.ensureIndex n idx = none)
    (hins : ∀ n doc, st.insert n doc = none) :
    (copyCollection st c).err = none := by
  have h1 := ensureIndexes_ok st c st.indexes.1 0 (fun j idx _ => hidx _ idx)
  have h2 := insertDocuments_ok st c st.iterDocs 0 (fun j doc _ => hins _ doc)
  have hl : st.indexes = (st.indexes.1, none) := by rw [← hlist]
  rw [copyCollection_of_pass st c (by simp [hdrop]),
    copyIndexesAndDocuments_stream st c st.indexes.1 _ hl h1, h2]

/-- While every copy and every count succeeds, the loop runs `copyCollection`
and then `Count` on each name that does not contain "system", in list order. -/
theorem copyCollections_ok (st : DatabaseStore Doc) (list : List String) (p : Nat)
    (hok : ∀ k c, list[k]? = some c → strings_Contains c "system" = false →
      (copyCollection (st.coll (p + k)) c).err = none ∧ (st.count (p + k)).2 = none) :
    copyCollections st list p =
      (((list.enumFrom p).filter (fun pc => !strings_Contains pc.2 "system")).flatMap
        (fun pc => (copyCollection (st.coll pc.1) pc.2).trace ++ [Op.count pc.2]), none) := by
  induction list generalizing p with
  | nil => rfl
  | cons c rest ih =>
    have hrest : ∀ k c', rest[k]? = some c' → strings_Contains c' "system" = false →
        (copyCollection (st.coll (p + 1 + k)) c').err = none ∧
          (st.count (p + 1 + k)).2 = none := by
      intro k c' hk hs
      have := hok (k + 1) c' (by simpa using hk) hs
      rwa [show p + (k + 1) = p + 1 + k by omega] at this
    have ih' := ih (p + 1) hrest
    cases hs : strings_Contains c "system" with
    | true => simp [copyCollections, hs, List.filter_cons, ih']
    | false =>
      have h0 := hok 0 c (by simp) hs
      simp only [Nat.add_zero] at h0
      simp [copyCollections, hs, List.filter_cons, ih', h0.1, h0.2]

/-- While every copy and every count succeeds on the first names of the list,
the loop goes on with the names that follow. -/
theorem copyCollections_append (st : DatabaseStore Doc) (pre rest : List String) (p : Nat)
    (hpre : ∀ k c, pre[k]? = some c → strings_Contains c "system" = false →
      (copyCollection (st.coll (p + k)) c).err = none ∧ (st.count (p + k)).2 = none) :
    copyCollections st (pre ++ rest) p =
      ((copyCollections st pre p).1 ++ (copyCollections st rest (p + pre.length)).1,
        (copyCollections st rest (p + pre.length)).2) := by
  induction pre generalizing p with
  | nil => simp [copyCollections]
  | cons c pre ih =>
    have hpre' : ∀ k c', pre[k]? = some c' → strings_Contains c' "system" = false →
        (copyCollection (st.coll (p + 1 + k)) c').err = none ∧
          (st.count (p + 1 + k)).2 = none := by
      intro k c' hk hs
      have := hpre (k + 1) c' (by simpa using hk) hs
      rwa [show p + (k + 1) = p + 1 + k by omega] at this
    have ih' := ih (p + 1) hpre'
    have hlen : p + (pre.length + 1) = p + 1 + pre.length := by omega
    cases hs : strings_Contains c "system" with
    | true => simp [copyCollections, hs, ih', hlen]
    | false =>
      have h0 := hpre 0 c (by simp) hs
      simp only [Nat.add_zero] at h0
      simp [copyCollections, hs, ih', h0.1, h0.2, hlen]

/-- The drops issued by the runs on the names without "system" are the drops
of those names. -/
theorem droppedName_of_runs (st : DatabaseStore Doc) (list : List String) (p : Nat) :
    (((list.enumFrom p).filter (fun pc => !strings_Contains pc.2 "system")).flatMap
        (fun pc => (copyCollection (st.coll pc.1) pc.2).trace ++ [Op.count pc.2])).filterMap
        Op.droppedName
      = list.filter (fun c => !strings_Contains c "system") := by
  induction list generalizing p with
  | nil => rfl
  | cons c rest ih =>
    cases hs : strings_Contains c "system" with
    | true => simp [List.filter_cons, hs, ih (p + 1)]
    | false =>
      simp only [List.enumFrom_cons, List.filter_cons, hs, Bool.not_false, if_true,
        List.flatMap_cons, List.filterMap_append, copyCollection_droppedName, ih (p + 1),
        List.filterMap_cons, Op.droppedName, List.filterMap_nil]
      rfl

/-- Every call of the loop addresses a name of the list it runs over. -/
theorem copyCollections_ops (st : DatabaseStore Doc) (list : List String) (p : Nat) :
    ∀ op ∈ (copyCollections st list p).1, ∃ c ∈ list, op.collection = some c := by
  induction list generalizing p with
  | nil => intro op hop; simp [copyCollections] at hop
  | cons c rest ih =>
    intro op hop
    have hrest : ∀ op ∈ (copyCollections st rest (p + 1)).1,
        ∃ c' ∈ c :: rest, op.collection = some c' := by
      intro op hop
      obtain ⟨c', hc', h⟩ := ih (p + 1) op hop
      exact ⟨c', List.mem_cons_of_mem _ hc', h⟩
    have hrun : ∀ op ∈ (copyCollection (st.coll p) c).trace,
        ∃ c' ∈ c :: rest, op.collection = some c' :=
      fun op hop => ⟨c, List.mem_cons_self _ _, copyCollection_ops_on_collection _ c op hop⟩
    cases hs : strings_Contains c "system" with
    | true =>
      simp only [copyCollections, hs, if_true] at hop
      exact hrest op hop
    | false =>
      cases herr : (copyCollection (st.coll p) c).err with
      | some e =>
        simp [copyCollections, hs, herr] at hop
        exact hrun op hop
      | none =>
        cases hcount : (st.count p).2 with
        | some e =>
          simp [copyCollections, hs, herr, hcount] at hop
          rcases hop with hop | rfl
          · exact hrun op hop
          · exact ⟨c, List.mem_cons_self _ _, rfl⟩
        | none =>
          simp [copyCollections, hs, herr, hcount] at hop
          rcases hop with hop | rfl | hop
          · exact hrun op hop
          · exact ⟨c, List.mem_cons_self _ _, rfl⟩
          · exact hrest op hop

end Database

/-! ## Claims on `copyCollection` -/

/-- C1, evaluated on the code: with three source documents, a first insert that
succeeds and a second insert that fails (k = 2), `copyCollection` returns the
count 2 (not k - 1 = 1) with a non-nil error, after passing exactly the first
two documents to `Insert`. -/
theorem copyCollection_counts_failed_insert :
    (copyCollection secondInsertFails "users").n = 2 ∧
      (copyCollection secondInsertFails "users").err =
        some (GoError.errorf
          "error inserting document into collection users: E11000 duplicate key error\n") ∧
      (copyCollection secondInsertFails "users").trace.filterMap Op.insertedDoc = [10, 20] := by
  decide

/-- C2: when the drop, the index listing, every index creation and every insert
succeed and the cursor yields `M` documents, `copyCollection` returns
`(M, nil)`. -/
theorem copyCollection_happy_path {Doc : Type} (st : CollectionStore Doc) (c : String)
    (idxs : List Index) (M : Nat)
    (hM : st.iterDocs.length = M)
    (hdrop : st.dropCollection = none)
    (hlist : st.indexes = (idxs, none))
    (hidx : ∀ j idx, idxs[j]? = some idx → st.ensureIndex j idx = none)
    (hins : ∀ j doc, st.iterDocs[j]? = some doc → st.insert j doc = none) :
    (copyCollection st c).n = M ∧ (copyCollection st c).err = none := by
  have h1 := ensureIndexes_ok st c idxs 0 (by simpa using hidx)
  have h2 := insertDocuments_ok st c st.iterDocs 0 (by simpa using hins)
  rw [copyCollection_of_pass st c (by simp [hdrop]),
    copyIndexesAndDocuments_stream st c idxs _ hlist h1, h2]
  simp [hM]

theorem copyCollection_happy_path_witness :
    (copyCollection healthyStore "users").n = 3 ∧
      (copyCollection healthyStore "users").err = none :=
  copyCollection_happy_path healthyStore "users" _ 3 rfl rfl rfl
    (fun _ _ _ => rfl) (fun _ _ _ => rfl)

/-- C4: `copyCollection` returns right after the drop call exactly when the
drop returns a non-nil error whose message does not contain "not found".  In
that case it returns count 0 and an error whose message contains the
collection name, and its only store call is the drop.  In the other case (the
drop returns nil, or an error whose message contains "not found") the run is
the same, in return values and in calls issued, as the run in which the drop
returned nil, and its second call is the index listing. -/
theorem copyCollection_drop_step {Doc : Type} (st : CollectionStore Doc) (c : String) :
    ((copyCollection st c).trace = [Op.dropCollection c] ↔
        ∃ e, st.dropCollection = some e ∧ strings_Contains e.Error "not found" = false) ∧
    ((∃ e, st.dropCollection = some e ∧ strings_Contains e.Error "not found" = false) →
        (copyCollection st c).n = 0 ∧
        (∃ e', (copyCollection st c).err = some e' ∧ strings_Contains e'.Error c = true) ∧
        ∀ op ∈ (copyCollection st c).trace, op.isEnsureIndex = false ∧ op.isInsert = false) ∧
    ((∀ e, st.dropCollection = some e → strings_Contains e.Error "not found" = true) →
        copyCollection st c = copyCollection { st with dropCollection := none } c ∧
        (copyCollection st c).trace[1]? = some (Op.indexes c)) := by
  refine ⟨⟨?_, ?_⟩, ?_, ?_⟩
  · intro ht
    rcases drop_fatal_or_pass st.dropCollection with hf | hpass
    · exact hf
    · exfalso
      rw [copyCollection_of_pass st c hpass] at ht
      obtain ⟨t, hcons⟩ := copyIndexesAndDocuments_trace_cons st c
      simp [hcons] at ht
  · rintro ⟨e, hd, hmsg⟩
    rw [copyCollection_of_fatal st c e hd hmsg]
  · rintro ⟨e, hd, hmsg⟩
    rw [copyCollection_of_fatal st c e hd hmsg]
    refine ⟨rfl, ⟨_, rfl, ?_⟩, ?_⟩
    · exact strings_Contains_mid2 _ _ _ _
    · intro op hop
      simp at hop
      subst hop
      exact ⟨rfl, rfl⟩
  · intro hpass
    have hnone : copyCollection { st with dropCollection := none } c =
        ⟨(copyIndexesAndDocuments st c).n, (copyIndexesAndDocuments st c).err,
          Op.dropCollection c :: (copyIndexesAndDocuments st c).trace⟩ := by
      rw [copyCollection_of_pass _ c (by simp)]
      have hsame := copyIndexesAndDocuments_congr { st with dropCollection := none } c st
        rfl rfl rfl rfl
      rw [hsame]
    rw [hnone, copyCollection_of_pass st c hpass]
    obtain ⟨t, hcons⟩ := copyIndexesAndDocuments_trace_cons st c
    exact ⟨rfl, by simp [hcons]⟩

theorem copyCollection_drop_step_witness :
    (copyCollection dropDenied "users").n = 0 ∧
      (∃ e', (copyCollection dropDenied "users").err = some e' ∧
        strings_Contains e'.Error "users" = true) ∧
      ∀ op ∈ (copyCollection dropDenied "users").trace,
        op.isEnsureIndex = false ∧ op.isInsert = false :=
  (copyCollection_drop_step dropDenied "users").2.1 ⟨_, rfl, by decide⟩

/-- C5: let the drop step pass and the index listing return `idxs`.  If the
index creations at positions before `j` (counted from 0) succeed and the one at
position `j`, for `idx`, fails, then the calls `copyCollection` issues are the
drop, the listing and the index creations for the first `j + 1` entries of
`idxs` in order (so it attempts exactly those indexes and no insert), and it
returns count 0 with an error whose message contains the collection name and
the name of `idx`. -/
theorem copyCollection_index_failure {Doc : Type} (st : CollectionStore Doc) (c : String)
    (idxs : List Index) (j : Nat) (idx : Index) (e : GoError)
    (hdrop : ∀ e', st.dropCollection = some e' → strings_Contains e'.Error "not found" = true)
    (hlist : st.indexes = (idxs, none))
    (hj : idxs[j]? = some idx)
    (hbefore : ∀ i idx', i < j → idxs[i]? = some idx' → st.ensureIndex i idx' = none)
    (hfail : st.ensureIndex j idx = some e) :
    (copyCollection st c).trace =
        Op.dropCollection c :: Op.indexes c :: (idxs.take (j + 1)).map (Op.ensureIndex c) ∧
      (copyCollection st c).trace.filterMap Op.ensuredIndex = idxs.take (j + 1) ∧
      (∀ op ∈ (copyCollection st c).trace, op.isInsert = false) ∧
      (copyCollection st c).n = 0 ∧
      ∃ e', (copyCollection st c).err = some e' ∧ strings_Contains e'.Error c = true ∧
        strings_Contains e'.Error idx.Name = true := by
  have h1 := ensureIndexes_fail st c idxs 0 j idx e hj (by simpa using hbefore)
    (by simpa using hfail)
  rw [copyCollection_of_pass st c hdrop,
    copyIndexesAndDocuments_index_error st c idxs _ _ hlist h1]
  refine ⟨rfl, ?_, ?_, rfl, _, rfl, ?_, ?_⟩
  · simp only [List.filterMap_cons, Op.ensuredIndex]
    exact filterMap_ensuredIndex_ensure c _
  · intro op hop
    rcases List.mem_cons.1 hop with rfl | hop
    · rfl
    · rcases List.mem_cons.1 hop with rfl | hop
      · rfl
      · exact (not_isInsert_of_mem_ensure c _ op hop).1
  · exact strings_Contains_mid4 _ _ _ _ _ _
  · exact strings_Contains_mid4' _ _ _ _ _ _

theorem copyCollection_index_failure_witness :
    (copyCollection secondIndexFails "users").trace =
        [Op.dropCollection "users", Op.indexes "users",
          Op.ensureIndex "users" (sampleIndex "_id_" ["_id"]),
          Op.ensureIndex "users" (sampleIndex "email_1" ["email"])] ∧
      (copyCollection secondIndexFails "users").n = 0 ∧
      (copyCollection secondIndexFails "users").err =
        some (GoError.errorf
          "error creating index email_1 for collection users: index build failed") := by
  have h := copyCollection_index_failure secondIndexFails "users" _ 1
    (sampleIndex "email_1" ["email"]) (GoError.errorf "index build failed")
    (by decide) rfl rfl
    (by intro i idx' hi _; have : i = 0 := by omega
        subst this; rfl)
    rfl
  exact ⟨h.1, h.2.2.2.1, by decide⟩

/-- C6: in the calls `copyCollection` issues, the drop is the first call and
stands before every index creation, and every index creation stands before
every insert.  If an insert is issued, the index listing succeeded, the index
creations issued are all entries of the listing, and each of them succeeded.
If an index creation is issued, the drop step passed (the drop returned nil or
an error whose message contains "not found"). -/
theorem copyCollection_call_order {Doc : Type} (st : CollectionStore Doc) (c : String) :
    (copyCollection st c).trace[0]? = some (Op.dropCollection c) ∧
    (∀ (i j : Nat) (a b : Op Doc), (copyCollection st c).trace[i]? = some a →
        (copyCollection st c).trace[j]? = some b →
        a.isDrop = true → b.isEnsureIndex = true → i < j) ∧
    (∀ (i j : Nat) (a b : Op Doc), (copyCollection st c).trace[i]? = some a →
        (copyCollection st c).trace[j]? = some b →
        a.isEnsureIndex = true → b.isInsert = true → i < j) ∧
    ((∃ op ∈ (copyCollection st c).trace, op.isInsert = true) →
        st.indexes.2 = none ∧
        (copyCollection st c).trace.filterMap Op.ensuredIndex = st.indexes.1 ∧
        ∀ j idx, st.indexes.1[j]? = some idx → st.ensureIndex j idx = none) ∧
    ((∃ op ∈ (copyCollection st c).trace, op.isEnsureIndex = true) →
        ∀ e, st.dropCollection = some e → strings_Contains e.Error "not found" = true) := by
  obtain ⟨l₁, l₂, ht, h₁, h₂⟩ := copyCollection_split st c
  refine ⟨by rw [ht]; simp, ?_, ?_, ?_, ?_⟩
  · intro i j a b hi hj ha hb
    rw [ht] at hi hj
    refine lt_of_append Op.isDrop Op.isEnsureIndex [Op.dropCollection c] (l₁ ++ l₂)
      ?_ ?_ i j a b (by simpa using hi) (by simpa using hj) ha hb
    · intro x hx
      simp at hx
      subst hx
      rfl
    · intro x hx
      rcases List.mem_append.1 hx with hx | hx
      · exact (h₁ x hx).2
      · exact (h₂ x hx).2
  · intro i j a b hi hj ha hb
    rw [ht] at hi hj
    refine lt_of_append Op.isEnsureIndex Op.isInsert (Op.dropCollection c :: l₁) l₂
      ?_ ?_ i j a b (by simpa using hi) (by simpa using hj) ha hb
    · intro x hx
      rcases List.mem_cons.1 hx with rfl | hx
      · rfl
      · exact (h₁ x hx).1
    · intro x hx
      exact (h₂ x hx).1
  · rintro ⟨op, hop, hins⟩
    have hnoins : ∀ x ∈ (ensureIndexes st c st.indexes.1 0).1, x.isInsert = false :=
      fun x hx => (mem_ensureIndexes st c _ _ x hx).2.1
    rcases copyCollection_cases st c with ⟨_, h⟩ | ⟨_, _, h⟩ | ⟨_, _, _, h⟩ | ⟨_, hl, he, h, _⟩
    · rw [h] at hop
      simp at hop
      subst hop
      exact Bool.noConfusion hins
    · rw [h] at hop
      simp at hop
      rcases hop with rfl | rfl <;> exact Bool.noConfusion hins
    · rw [h] at hop
      rcases List.mem_cons.1 hop with rfl | hop
      · exact Bool.noConfusion hins
      · rcases List.mem_cons.1 hop with rfl | hop
        · exact Bool.noConfusion hins
        · rw [hnoins op hop] at hins
          exact Bool.noConfusion hins
    · have hall := ensureIndexes_none st c st.indexes.1 0 he
      have hok := ensureIndexes_ok st c st.indexes.1 0 hall
      obtain ⟨r, _, hr⟩ := insertDocuments_trace st c st.iterDocs 0
      refine ⟨hl, ?_, by simpa using hall⟩
      rw [h, hok, hr]
      simp only [List.cons_append, List.filterMap_cons, List.filterMap_append,
        List.filterMap_nil, Op.ensuredIndex, filterMap_ensuredIndex_ensure,
        filterMap_ensuredIndex_insert, List.append_nil]
  · rintro ⟨op, hop, hens⟩
    rcases copyCollection_cases st c with ⟨_, h⟩ | ⟨hp, _⟩ | ⟨hp, _⟩ | ⟨hp, _⟩
    · rw [h] at hop
      simp at hop
      subst hop
      exact Bool.noConfusion hens
    · exact hp
    · exact hp
    · exact hp

/-- C7: the documents `copyCollection` passes to `Insert`, in call order, are
the first `r` documents the cursor yields, for some `r`; when the cursor is
opened and no insert fails, they are all the documents the cursor yields. -/
theorem copyCollection_inserts_in_cursor_order {Doc : Type} (st : CollectionStore Doc)
    (c : String) :
    (∃ r, r ≤ st.iterDocs.length ∧
        (copyCollection st c).trace.filterMap Op.insertedDoc = st.iterDocs.take r) ∧
    (Op.find c ∈ (copyCollection st c).trace →
        (∀ j doc, st.iterDocs[j]? = some doc → st.insert j doc = none) →
        (copyCollection st c).trace.filterMap Op.insertedDoc = st.iterDocs) := by
  have hnone : (ensureIndexes st c st.indexes.1 0).1.filterMap Op.insertedDoc = [] := by
    obtain ⟨r, _, hr⟩ := ensureIndexes_trace st c st.indexes.1 0
    rw [hr]
    exact filterMap_insertedDoc_ensure c _
  rcases copyCollection_cases st c with ⟨_, h⟩ | ⟨_, _, h⟩ | ⟨_, _, _, h⟩ | ⟨_, _, _, h, _⟩
  · rw [h]
    exact ⟨⟨0, Nat.zero_le _, rfl⟩, fun hf => by simp at hf⟩
  · rw [h]
    exact ⟨⟨0, Nat.zero_le _, rfl⟩, fun hf => by simp at hf⟩
  · rw [h]
    refine ⟨⟨0, Nat.zero_le _, by simp [Op.insertedDoc, hnone]⟩, fun hf => ?_⟩
    exfalso
    simp at hf
    exact (mem_ensureIndexes st c _ _ _ hf).2.2.2 rfl
  · rw [h]
    have hfm : ∀ t : List (Op Doc),
        (Op.dropCollection c :: Op.indexes c :: (ensureIndexes st c st.indexes.1 0).1
          ++ Op.find c :: t ++ [Op.iterClose c]).filterMap Op.insertedDoc
          = t.filterMap Op.insertedDoc := by
      intro t
      simp [List.filterMap_append, Op.insertedDoc, hnone]
    rw [hfm]
    refine ⟨?_, fun _ hins => ?_⟩
    · obtain ⟨r, hle, hr⟩ := insertDocuments_trace st c st.iterDocs 0
      exact ⟨r, hle, by rw [hr]; exact filterMap_insertedDoc_insert c _⟩
    · rw [insertDocuments_ok st c st.iterDocs 0 (by simpa using hins)]
      exact filterMap_insertedDoc_insert c _

theorem copyCollection_inserts_in_cursor_order_witness :
    (copyCollection healthyStore "users").trace.filterMap Op.insertedDoc = [10, 20, 30] :=
  (copyCollection_inserts_in_cursor_order healthyStore "users").2 (by decide)
    (fun _ _ _ => rfl)

theorem copyCollection_call_order_witness :
    (∃ op ∈ (copyCollection healthyStore "users").trace, op.isInsert = true) ∧
      (copyCollection healthyStore "users").trace.filterMap Op.ensuredIndex
        = [sampleIndex "_id_" ["_id"], sampleIndex "email_1" ["email"]] :=
  ⟨by decide,
    ((copyCollection_call_order healthyStore "users").2.2.2.1 (by decide)).2.1⟩

/-- C9, evaluated on the code: the cursor yields one document and then stops on
an iteration failure; `copyCollection` returns `(1, nil)`. -/
theorem copyCollection_ignores_cursor_error :
    brokenCursor.iterErr ≠ none ∧
      (copyCollection brokenCursor "users").n = 1 ∧
      (copyCollection brokenCursor "users").err = none := by
  decide

/-- C10, evaluated on the code: when `Indexes()` fails for the collection
"users", the error `copyCollection` returns does not contain "users". -/
theorem copyCollection_index_list_error_unnamed :
    (copyCollection brokenIndexList "users").err =
        some (GoError.errorf "error getting index list: EOF") ∧
      strings_Contains "error getting index list: EOF" "users" = false := by
  decide

/-! ## Claims on `copyDatabase` -/

/-- C3: let `CollectionNames()` return `list` and let no store call fail.  Then
the calls `copyDatabase` issues are the enumeration followed, for each entry of
`list` whose name does not contain "system", in list order, by one run of
`copyCollection` on that name and its `Count`.  Each run of `copyCollection`
issues exactly one drop, on its own collection, so the names copied, read off
the drops, are `list` with the names containing "system" removed.  The function
returns nil. -/
theorem copyDatabase_copies_non_system {Doc : Type} (st : DatabaseStore Doc)
    (list : List String)
    (hnames : st.collectionNames = (list, none))
    (hok : ∀ p, p < list.length →
      (st.coll p).dropCollection = none ∧ (st.coll p).indexes.2 = none ∧
      (∀ n idx, (st.coll p).ensureIndex n idx = none) ∧ (st.coll p).iterErr = none ∧
      (∀ n doc, (st.coll p).insert n doc = none) ∧ (st.count p).2 = none) :
    (copyDatabase st).trace =
        Op.collectionNames ::
          (list.enum.filter (fun pc => !strings_Contains pc.2 "system")).flatMap
            (fun pc => (copyCollection (st.coll pc.1) pc.2).trace ++ [Op.count pc.2]) ∧
      (copyDatabase st).trace.filterMap Op.droppedName
        = list.filter (fun c => !strings_Contains c "system") ∧
      (copyDatabase st).err = none := by
  have hloop := copyCollections_ok st list 0 (by
    intro k c hk _
    have hlt : k < list.length := (List.getElem?_eq_some.1 hk).1
    obtain ⟨h1, h2, h3, _, h5, h6⟩ := hok k hlt
    simp only [Nat.zero_add]
    exact ⟨copyCollection_err_none _ c h1 h2 h3 h5, h6⟩)
  have hrun : copyDatabase st = ⟨(copyCollections st list 0).2,
      Op.collectionNames :: (copyCollections st list 0).1⟩ := by
    simp [copyDatabase, hnames]
  rw [hrun, hloop]
  refine ⟨rfl, ?_, rfl⟩
  simp only [List.filterMap_cons, Op.droppedName]
  exact droppedName_of_runs st list 0

theorem copyDatabase_copies_non_system_witness :
    (copyDatabase healthyDatabase).trace.filterMap Op.droppedName
      = ["users", "orders", "System.Audit"] :=
  (copyDatabase_copies_non_system healthyDatabase
    ["users", "system.indexes", "orders", "ecosystems", "System.Audit"] rfl
    (fun _ _ => ⟨rfl, rfl, fun _ _ => rfl, rfl, fun _ _ => rfl, rfl⟩)).2.1.trans (by decide)

/-- C8: let `CollectionNames()` return `pre ++ c :: post`, where the name `c`
does not contain "system", every copy and count for the names of `pre` without
"system" succeeds (so the loop reaches `c`), and `copyCollection` on `c`
returns the error `e`.  Then `copyDatabase` returns `e`, and the calls it
issues are the enumeration, the calls of the loop over `pre`, and the calls of
the run of `copyCollection` on `c`; nothing follows, not even the `Count` of
`c`.  Every call that addresses a collection addresses `c` or a name of `pre`,
so no call is issued for the names that come after `c`. -/
theorem copyDatabase_stops_at_first_error {Doc : Type} (st : DatabaseStore Doc)
    (pre post : List String) (c : String) (e : GoError)
    (hnames : st.collectionNames = (pre ++ c :: post, none))
    (hpre : ∀ k c', pre[k]? = some c' → strings_Contains c' "system" = false →
      (copyCollection (st.coll k) c').err = none ∧ (st.count k).2 = none)
    (hc : strings_Contains c "system" = false)
    (herr : (copyCollection (st.coll pre.length) c).err = some e) :
    (copyDatabase st).err = some e ∧
      (copyDatabase st).trace =
        Op.collectionNames :: (copyCollections st pre 0).1
          ++ (copyCollection (st.coll pre.length) c).trace ∧
      ∀ op ∈ (copyDatabase st).trace, ∀ c', op.collection = some c' → c' ∈ pre ∨ c' = c := by
  have happ := copyCollections_append st pre (c :: post) 0 (by simpa using hpre)
  have hstep : copyCollections st (c :: post) (0 + pre.length) =
      ((copyCollection (st.coll pre.length) c).trace, some e) := by
    simp [copyCollections, hc, herr]
  have hrun : copyDatabase st = ⟨(copyCollections st (pre ++ c :: post) 0).2,
      Op.collectionNames :: (copyCollections st (pre ++ c :: post) 0).1⟩ := by
    simp [copyDatabase, hnames]
  rw [hrun, happ, hstep]
  refine ⟨rfl, rfl, ?_⟩
  intro op hop c' hc'
  rcases List.mem_cons.1 hop with rfl | hop
  · simp [Op.collection] at hc'
  · rcases List.mem_append.1 hop with hop | hop
    · obtain ⟨c'', hmem, h⟩ := copyCollections_ops st pre 0 op hop
      rw [h] at hc'
      have heq : c'' = c' := Option.some.inj hc'
      exact Or.inl (heq ▸ hmem)
    · have h := copyCollection_ops_on_collection _ c op hop
      rw [h] at hc'
      exact Or.inr (Option.some.inj hc').symm

theorem copyDatabase_stops_at_first_error_witness :
    (copyDatabase thirdCopyFails).err =
        some (GoError.errorf
          "collection drop error orders: not authorized on shop to execute command") ∧
      (copyDatabase thirdCopyFails).trace.filterMap Op.droppedName = ["users", "orders"] := by
  have h := copyDatabase_stops_at_first_error thirdCopyFails ["users", "system.js"] ["carts"]
    "orders" (GoError.errorf
      "collection drop error orders: not authorized on shop to execute command")
    rfl
    (by
      intro k c' hk _
      rcases k with _ | _ | k
      · simp at hk
        subst hk
        decide
      · simp at hk
        subst hk
        decide
      · simp at hk)
    (by decide) (by decide)
  exact ⟨h.1, by decide⟩

end CopyMgo
